import Mathlib

set_option maxRecDepth 8192

/-!
Verification development for the `gregb/pq` PostgreSQL driver.

The pure codec layer of the driver (decimal/hex/octal text forms, the bytea
codec, the text-array tokenizer and emitter, the timestamp parser, the
command-tag parser, the OID registry and the environment/transaction logic)
is embedded below as executable Lean definitions, translated from the Go
source.  Go byte strings are modelled as `List Nat` (each element `< 256`);
Go text strings as `List Char`.  All the data handled by the theorems below
is ASCII, where Go's rune/byte distinction disappears.  Go functions that
can `panic` (directly or through `errorf`) are modelled with `Option` /
`Except` or an explicit result constructor.
-/

namespace Pq

/-! ### Decimal text of integers (Go `fmt.Sprintf("%d", v)` / `strconv.ParseInt`) -/

/-- Value of an ASCII digit character. -/
def digitVal (c : Char) : Nat := c.toNat - '0'.toNat

/-- ASCII decimal digit test. -/
def isDigitChar (c : Char) : Bool := decide ('0' ≤ c) && decide (c ≤ '9')

/-- Value of a decimal digit string (most significant first). -/
def digitsVal (s : List Char) : Nat := s.foldl (fun a c => a * 10 + digitVal c) 0

/-- Decimal digits of a natural number, as printed by Go's `%d`. -/
def natDigits (n : Nat) : List Char :=
  if n < 10 then [Nat.digitChar n]
  else natDigits (n / 10) ++ [Nat.digitChar (n % 10)]
decreasing_by exact Nat.div_lt_self (by omega) (by omega)

/-- Go `fmt.Sprintf("%d", v)` for a signed 64-bit integer. -/
def intToDec (n : Int) : List Char :=
  if n < 0 then '-' :: natDigits (-n).toNat else natDigits n.toNat

/-- Unsigned part of `strconv.ParseInt`: all characters must be decimal digits
and there must be at least one. -/
def parseUnsigned (s : List Char) : Option Nat :=
  if s ≠ [] ∧ s.all isDigitChar then some (digitsVal s) else none

/-- Go `strconv.ParseInt(s, 10, 64)` (also `strconv.Atoi` on a 64-bit platform):
optional sign, decimal digits, 64-bit range check.  `none` models the error
return. -/
def parseInt64 (s : List Char) : Option Int :=
  match s with
  | [] => none
  | c :: rest =>
    if c = '-' then
      match parseUnsigned rest with
      | some m => if m ≤ 2 ^ 63 then some (-(m : Int)) else none
      | none => none
    else if c = '+' then
      match parseUnsigned rest with
      | some m => if m ≤ 2 ^ 63 - 1 then some (m : Int) else none
      | none => none
    else
      match parseUnsigned s with
      | some m => if m ≤ 2 ^ 63 - 1 then some (m : Int) else none
      | none => none

theorem natDigits_ne_nil (n : Nat) : natDigits n ≠ [] := by
  rw [natDigits]
  split <;> simp

theorem digitChar_isDigit {n : Nat} (h : n < 10) : isDigitChar (Nat.digitChar n) = true := by
  interval_cases n <;> decide

theorem digitVal_digitChar {n : Nat} (h : n < 10) : digitVal (Nat.digitChar n) = n := by
  interval_cases n <;> decide

theorem natDigits_all_digit (n : Nat) : ∀ c ∈ natDigits n, isDigitChar c = true := by
  induction n using Nat.strong_induction_on with
  | _ n ih =>
    rw [natDigits]
    split
    · intro c hc
      simp only [List.mem_singleton] at hc
      subst hc
      exact digitChar_isDigit (by omega)
    · intro c hc
      rcases List.mem_append.mp hc with h1 | h2
      · exact ih (n / 10) (Nat.div_lt_self (by omega) (by omega)) c h1
      · simp only [List.mem_singleton] at h2
        subst h2
        exact digitChar_isDigit (Nat.mod_lt _ (by omega))

theorem digitsVal_append (l : List Char) (c : Char) :
    digitsVal (l ++ [c]) = 10 * digitsVal l + digitVal c := by
  simp [digitsVal, List.foldl_append, Nat.mul_comm]

theorem digitsVal_natDigits (n : Nat) : digitsVal (natDigits n) = n := by
  induction n using Nat.strong_induction_on with
  | _ n ih =>
    rw [natDigits]
    split
    · rename_i h
      simp only [digitsVal, List.foldl_cons, List.foldl_nil, Nat.zero_mul, Nat.zero_add]
      exact digitVal_digitChar h
    · rw [digitsVal_append, ih (n / 10) (Nat.div_lt_self (by omega) (by omega)),
        digitVal_digitChar (Nat.mod_lt _ (by omega))]
      omega

theorem parseUnsigned_natDigits (n : Nat) : parseUnsigned (natDigits n) = some n := by
  unfold parseUnsigned
  rw [if_pos ⟨natDigits_ne_nil n, List.all_eq_true.mpr (by simpa using natDigits_all_digit n)⟩,
    digitsVal_natDigits]

theorem natDigits_head_digit (n : Nat) :
    ∃ c t, natDigits n = c :: t ∧ isDigitChar c = true := by
  rcases h : natDigits n with _ | ⟨c, t⟩
  · exact absurd h (natDigits_ne_nil n)
  · exact ⟨c, t, rfl, natDigits_all_digit n c (h ▸ List.mem_cons_self c t)⟩

theorem digit_ne_minus {c : Char} (h : isDigitChar c = true) : c ≠ '-' := by
  simp only [isDigitChar, Bool.and_eq_true, decide_eq_true_eq] at h
  intro he
  subst he
  exact absurd h.1 (by decide)

theorem digit_ne_plus {c : Char} (h : isDigitChar c = true) : c ≠ '+' := by
  simp only [isDigitChar, Bool.and_eq_true, decide_eq_true_eq] at h
  intro he
  subst he
  exact absurd h.1 (by decide)

/-- Go `strconv.ParseInt` is a left inverse of `%d` on the 64-bit range. -/
theorem parseInt64_intToDec (n : Int) (h1 : -(2 ^ 63) ≤ n) (h2 : n < 2 ^ 63) :
    parseInt64 (intToDec n) = some n := by
  have hp : (2 : Int) ^ 63 = 9223372036854775808 := by norm_num
  rw [hp] at h1 h2
  unfold intToDec
  split
  · rename_i hneg
    have hm : ((-n).toNat : Int) = -n := Int.toNat_of_nonneg (by omega)
    have hle : (-n).toNat ≤ 2 ^ 63 := by
      have : (2 : Nat) ^ 63 = 9223372036854775808 := by norm_num
      omega
    have hstep : parseInt64 ('-' :: natDigits (-n).toNat)
        = match parseUnsigned (natDigits (-n).toNat) with
          | some m => if m ≤ 2 ^ 63 then some (-(m : Int)) else none
          | none => none := by
      simp [parseInt64]
    rw [hstep, parseUnsigned_natDigits]
    show (if (-n).toNat ≤ 2 ^ 63 then some (-(((-n).toNat : Nat) : Int)) else none) = some n
    rw [if_pos hle]
    congr 1
    omega
  · rename_i hpos
    obtain ⟨c, t, he, hd⟩ := natDigits_head_digit n.toNat
    rw [he]
    have hm : (n.toNat : Int) = n := Int.toNat_of_nonneg (by omega)
    have hle : n.toNat ≤ 2 ^ 63 - 1 := by
      have : (2 : Nat) ^ 63 = 9223372036854775808 := by norm_num
      omega
    have hstep : parseInt64 (c :: t)
        = match parseUnsigned (c :: t) with
          | some m => if m ≤ 2 ^ 63 - 1 then some (m : Int) else none
          | none => none := by
      simp [parseInt64, digit_ne_minus hd, digit_ne_plus hd]
    rw [hstep, ← he, parseUnsigned_natDigits]
    show (if n.toNat ≤ 2 ^ 63 - 1 then some ((n.toNat : Nat) : Int) else none) = some n
    rw [if_pos hle, hm]

theorem char_toNat_ofNat {b : Nat} (h : b < 55296) : (Char.ofNat b).toNat = b := by
  rw [Char.ofNat, dif_pos (Or.inl h)]
  rfl

/-! ### Bytea codec (src/unnamed/part_001, `encodeBytea` lines 337-354 and
`parseBytea` lines 293-336).  Byte strings are `List Nat`, elements `< 256`. -/

/-- Body of `fmt.Sprintf("%x", v)` on a byte slice: two lowercase hex digits
per byte (`Nat.digitChar` gives `0-9a-f` below 16). -/
def hexBody (v : List Nat) : List Char :=
  v.flatMap fun b => [Nat.digitChar (b / 16), Nat.digitChar (b % 16)]

/-- Digits of `fmt.Sprintf("%03o", b)` for a byte: three octal digits with
leading zeros. -/
def octal3 (b : Nat) : List Char :=
  [Nat.digitChar (b / 64 % 8), Nat.digitChar (b / 8 % 8), Nat.digitChar (b % 8)]

/-- One byte of the legacy "escape" bytea encoding (else-branch of
`encodeBytea`): a backslash is doubled, bytes outside `[0x20, 0x7e]` become
`\NNN` octal, anything else is emitted raw. -/
def escByte (b : Nat) : List Char :=
  if b = 92 then ['\\', '\\']
  else if b < 0x20 ∨ 0x7e < b then '\\' :: octal3 b
  else [Char.ofNat b]

/-- Go `encodeBytea(serverVersion, v)`: hex format (`\x` + lowercase hex) when the
server version is at least 90000, legacy escape format otherwise. -/
def encodeBytea (serverVersion : Int) (v : List Nat) : List Char :=
  if 90000 ≤ serverVersion then '\\' :: 'x' :: hexBody v
  else v.flatMap escByte

/-- Value of one hex digit as accepted by Go's `encoding/hex`. -/
def hexDigitVal (c : Char) : Option Nat :=
  if '0' ≤ c ∧ c ≤ '9' then some (c.toNat - '0'.toNat)
  else if 'a' ≤ c ∧ c ≤ 'f' then some (c.toNat - 'a'.toNat + 10)
  else if 'A' ≤ c ∧ c ≤ 'F' then some (c.toNat - 'A'.toNat + 10)
  else none

/-- Go `hex.Decode`: pairs of hex digits; odd length or a bad digit is an
error. -/
def hexDecode : List Char → Option (List Nat)
  | [] => some []
  | [_] => none
  | a :: b :: rest => do
    let hi ← hexDigitVal a
    let lo ← hexDigitVal b
    let tail ← hexDecode rest
    pure ((hi * 16 + lo) :: tail)

/-- Octal digit test for `strconv.ParseInt(s, 8, 9)` on a 3-digit escape. -/
def isOctDigit (c : Char) : Bool := decide ('0' ≤ c) && decide (c ≤ '7')

/-- Escape-format branch of `parseBytea`: `\\` yields a backslash, `\` + three
octal digits yields that byte (with fewer than 4 bytes remaining this is the
`invalid bytea sequence` error), and a raw run is consumed up to the next
backslash in one go. -/
def parseByteaEscape : List Char → Option (List Nat)
  | [] => some []
  | '\\' :: '\\' :: rest2 => (parseByteaEscape rest2).map fun t => 92 :: t
  | '\\' :: d1 :: d2 :: d3 :: rest2 =>
    if isOctDigit d1 ∧ isOctDigit d2 ∧ isOctDigit d3 then
      (parseByteaEscape rest2).map fun t =>
        (digitVal d1 * 64 + digitVal d2 * 8 + digitVal d3) :: t
    else none
  | '\\' :: _ => none
  | c :: cs =>
    let run := cs.takeWhile fun x => x ≠ '\\'
    (parseByteaEscape (cs.dropWhile fun x => x ≠ '\\')).map fun t =>
      (c :: run).map Char.toNat ++ t
termination_by s => s.length
decreasing_by
  · simp only [List.length_cons]
    omega
  · simp only [List.length_cons]
    omega
  · simp only [List.length_cons]
    have := (List.dropWhile_sublist (l := cs) (fun x => x ≠ '\\')).length_le
    omega

/-- Go `parseBytea`: a `\x` prefix selects hex decoding of the remainder,
anything else the escape format. -/
def parseBytea (s : List Char) : Option (List Nat) :=
  if 2 ≤ s.length ∧ s.take 2 = ['\\', 'x'] then hexDecode (s.drop 2)
  else parseByteaEscape s

theorem hexDigitVal_digitChar {d : Nat} (h : d < 16) :
    hexDigitVal (Nat.digitChar d) = some d := by
  interval_cases d <;> decide

theorem hexDecode_hexBody (v : List Nat) (h : ∀ b ∈ v, b < 256) :
    hexDecode (hexBody v) = some v := by
  induction v with
  | nil => rfl
  | cons b w ih =>
    have hb : b < 256 := h b (List.mem_cons_self b w)
    have h1 : b / 16 < 16 := by omega
    have h2 : b % 16 < 16 := by omega
    simp only [hexBody, List.flatMap_cons, List.cons_append, List.nil_append]
    show hexDecode (Nat.digitChar (b / 16) :: Nat.digitChar (b % 16) :: hexBody w) = some (b :: w)
    rw [hexDecode, hexDigitVal_digitChar h1, hexDigitVal_digitChar h2,
      ih (fun x hx => h x (List.mem_cons_of_mem b hx))]
    simp only [Option.bind_eq_bind, Option.some_bind]
    congr 2
    omega

theorem pbe_backslash (l : List Char) :
    parseByteaEscape ('\\' :: '\\' :: l) = (parseByteaEscape l).map fun t => 92 :: t := by
  rw [parseByteaEscape]

theorem pbe_octal (d1 d2 d3 : Char) (l : List Char) (h : d1 ≠ '\\') :
    parseByteaEscape ('\\' :: d1 :: d2 :: d3 :: l)
      = if isOctDigit d1 ∧ isOctDigit d2 ∧ isOctDigit d3 then
          (parseByteaEscape l).map fun t =>
            (digitVal d1 * 64 + digitVal d2 * 8 + digitVal d3) :: t
        else none := by
  rw [parseByteaEscape.eq_def]
  split <;> try simp_all
  · rename_i hnb hnd heq
    exact absurd heq.symm (hnd d1 d2 d3 l)
  · rename_i hne heq
    exact absurd heq.1.symm hne

theorem pbe_raw (c : Char) (cs : List Char) (h : c ≠ '\\') :
    parseByteaEscape (c :: cs)
      = (parseByteaEscape (cs.dropWhile fun x => x ≠ '\\')).map fun t =>
          (c :: cs.takeWhile fun x => x ≠ '\\').map Char.toNat ++ t := by
  rw [parseByteaEscape.eq_def]
  split <;> try simp_all

/-- Bytes the escape encoder passes through unchanged. -/
def isRawByte (b : Nat) : Bool := decide (32 ≤ b) && decide (b ≤ 126) && decide (b ≠ 92)

theorem escByte_raw {b : Nat} (h : isRawByte b = true) : escByte b = [Char.ofNat b] := by
  simp only [isRawByte, Bool.and_eq_true, decide_eq_true_eq] at h
  unfold escByte
  rw [if_neg h.2, if_neg (by omega)]

theorem not_raw_cases {b : Nat} (h : isRawByte b = false) : b < 32 ∨ 126 < b ∨ b = 92 := by
  by_contra hc
  rw [show isRawByte b = true by simp [isRawByte]; omega] at h
  simp at h

theorem escByte_nonraw_head {b : Nat} (h : isRawByte b = false) :
    ∃ t, escByte b = '\\' :: t := by
  unfold escByte
  by_cases h92 : b = 92
  · subst h92
    exact ⟨['\\'], rfl⟩
  · rw [if_neg h92, if_pos (by rcases not_raw_cases h with h1 | h2 | h3 <;> [exact Or.inl h1; exact Or.inr h2; exact absurd h3 h92])]
    exact ⟨octal3 b, rfl⟩

theorem raw_char_ne_backslash {b : Nat} (h : isRawByte b = true) : Char.ofNat b ≠ '\\' := by
  simp only [isRawByte, Bool.and_eq_true, decide_eq_true_eq] at h
  intro he
  have ht := char_toNat_ofNat (show b < 55296 by omega)
  rw [he] at ht
  exact h.2 (by simpa using ht.symm)

theorem flatMap_escByte_split (w : List Nat) :
    w.flatMap escByte
      = (w.takeWhile isRawByte).map Char.ofNat ++ (w.dropWhile isRawByte).flatMap escByte := by
  induction w with
  | nil => rfl
  | cons b w ih =>
    cases hr : isRawByte b
    · simp [List.takeWhile_cons, List.dropWhile_cons, hr]
    · simp only [List.flatMap_cons, List.takeWhile_cons, List.dropWhile_cons, hr, if_pos,
        List.map_cons, List.cons_append]
      rw [escByte_raw hr, ih]
      simp

theorem takeWhile_raw_append (r : List Nat) (m : List Char)
    (hr : ∀ b ∈ r, isRawByte b = true)
    (hm : m = [] ∨ ∃ t, m = '\\' :: t) :
    (r.map Char.ofNat ++ m).takeWhile (fun x => x ≠ '\\') = r.map Char.ofNat ∧
    (r.map Char.ofNat ++ m).dropWhile (fun x => x ≠ '\\') = m := by
  induction r with
  | nil =>
    rcases hm with rfl | ⟨t, rfl⟩
    · exact ⟨rfl, rfl⟩
    · constructor <;> simp [List.takeWhile_cons, List.dropWhile_cons]
  | cons b r ih =>
    have hb := hr b (List.mem_cons_self b r)
    have hne := raw_char_ne_backslash hb
    have hbf : decide (Char.ofNat b = '\\') = false := by simp [hne]
    obtain ⟨h1, h2⟩ := ih fun x hx => hr x (List.mem_cons_of_mem _ hx)
    simp only [ne_eq, decide_not] at h1 h2
    refine ⟨?_, ?_⟩
    · simp only [List.map_cons, List.cons_append, List.takeWhile_cons, ne_eq, decide_not, hbf]
      simp [h1]
    · simp only [List.map_cons, List.cons_append, List.dropWhile_cons, ne_eq, decide_not, hbf]
      simp [h2]

theorem octDigitChar_ne_backslash {d : Nat} (h : d < 8) : Nat.digitChar d ≠ '\\' := by
  interval_cases d <;> decide

theorem octDigitChar_isOct {d : Nat} (h : d < 8) : isOctDigit (Nat.digitChar d) = true := by
  interval_cases d <;> decide

theorem parseByteaEscape_flatMap :
    ∀ (n : Nat) (v : List Nat), v.length ≤ n → (∀ b ∈ v, b < 256) →
      parseByteaEscape (v.flatMap escByte) = some v := by
  intro n
  induction n with
  | zero =>
    intro v hlen _
    rw [List.length_eq_zero.mp (Nat.le_zero.mp hlen)]
    simp [parseByteaEscape]
  | succ n ih =>
    intro v hlen hb
    match v with
    | [] => simp [parseByteaEscape]
    | b :: w =>
      have hb0 : b < 256 := hb b (List.mem_cons_self b w)
      have hbw : ∀ x ∈ w, x < 256 := fun x hx => hb x (List.mem_cons_of_mem _ hx)
      have hwlen : w.length ≤ n := by
        simp only [List.length_cons] at hlen
        omega
      by_cases h92 : b = 92
      · subst h92
        have hflat : (92 :: w).flatMap escByte = '\\' :: '\\' :: w.flatMap escByte := by
          simp [escByte]
        rw [hflat, pbe_backslash, ih w hwlen hbw]
        rfl
      · by_cases hoct : b < 32 ∨ 126 < b
        · have hesc : escByte b = '\\' :: octal3 b := by
            unfold escByte
            rw [if_neg h92, if_pos hoct]
          have hd1 : b / 64 % 8 < 8 := Nat.mod_lt _ (by omega)
          have hd2 : b / 8 % 8 < 8 := Nat.mod_lt _ (by omega)
          have hd3 : b % 8 < 8 := Nat.mod_lt _ (by omega)
          have hflat : (b :: w).flatMap escByte
              = '\\' :: Nat.digitChar (b / 64 % 8) :: Nat.digitChar (b / 8 % 8)
                  :: Nat.digitChar (b % 8) :: w.flatMap escByte := by
            simp [hesc, octal3]
          rw [hflat, pbe_octal _ _ _ _ (octDigitChar_ne_backslash hd1),
            if_pos ⟨octDigitChar_isOct hd1, octDigitChar_isOct hd2, octDigitChar_isOct hd3⟩,
            ih w hwlen hbw]
          simp only [Option.map_some']
          congr 2
          rw [digitVal_digitChar (by omega), digitVal_digitChar (by omega),
            digitVal_digitChar (by omega)]
          omega
        · have hraw : isRawByte b = true := by
            simp only [isRawByte, Bool.and_eq_true, decide_eq_true_eq]
            omega
          have hrw : ∀ x ∈ w.takeWhile isRawByte, isRawByte x = true :=
            fun x hx => List.mem_takeWhile_imp hx
          have hmOr : (w.dropWhile isRawByte).flatMap escByte = []
              ∨ ∃ t, (w.dropWhile isRawByte).flatMap escByte = '\\' :: t := by
            rcases hu : w.dropWhile isRawByte with _ | ⟨x, u⟩
            · exact Or.inl rfl
            · right
              have hx : isRawByte x = false := by
                have := List.head?_dropWhile_not isRawByte w
                rw [hu] at this
                simpa using this
              obtain ⟨t, ht⟩ := escByte_nonraw_head hx
              exact ⟨t ++ u.flatMap escByte, by simp [ht]⟩
          obtain ⟨htake, hdrop⟩ :=
            takeWhile_raw_append (w.takeWhile isRawByte) ((w.dropWhile isRawByte).flatMap escByte)
              hrw hmOr
          have hflat : (b :: w).flatMap escByte
              = Char.ofNat b
                :: ((w.takeWhile isRawByte).map Char.ofNat
                    ++ (w.dropWhile isRawByte).flatMap escByte) := by
            rw [List.flatMap_cons, escByte_raw hraw, flatMap_escByte_split w]
            rfl
          have hulen : (w.dropWhile isRawByte).length ≤ n := by
            have := (List.dropWhile_sublist (l := w) isRawByte).length_le
            omega
          have hub : ∀ x ∈ w.dropWhile isRawByte, x < 256 :=
            fun x hx => hbw x ((List.dropWhile_sublist isRawByte).subset hx)
          have hmapid : ((w.takeWhile isRawByte).map (Char.toNat ∘ Char.ofNat))
              = w.takeWhile isRawByte := by
            have hc : ∀ x ∈ w.takeWhile isRawByte, (Char.toNat ∘ Char.ofNat) x = id x := by
              intro x hx
              have hxr := hrw x hx
              simp only [isRawByte, Bool.and_eq_true, decide_eq_true_eq] at hxr
              simp only [Function.comp_apply, id_eq]
              exact char_toNat_ofNat (by omega)
            rw [List.map_congr_left hc, List.map_id]
          rw [hflat, pbe_raw _ _ (raw_char_ne_backslash hraw), htake, hdrop, ih _ hulen hub]
          simp only [Option.map_some', List.map_cons, List.map_map]
          rw [char_toNat_ofNat (show b < 55296 by omega), hmapid]
          simp

theorem octDigitChar_ne_x {d : Nat} (h : d < 8) : Nat.digitChar d ≠ 'x' := by
  interval_cases d <;> decide

theorem escape_no_hexMarker (v : List Nat) (hv : ∀ b ∈ v, b < 256) :
    ¬(2 ≤ (v.flatMap escByte).length ∧ (v.flatMap escByte).take 2 = ['\\', 'x']) := by
  rintro ⟨hlen, htake⟩
  match v with
  | [] => simp at hlen
  | b :: w =>
    have hb : b < 256 := hv b (List.mem_cons_self b w)
    by_cases h92 : b = 92
    · subst h92
      rw [show (92 :: w).flatMap escByte = '\\' :: '\\' :: w.flatMap escByte by simp [escByte]]
        at htake
      simp at htake
    · by_cases hoct : b < 32 ∨ 126 < b
      · have hesc : escByte b = '\\' :: octal3 b := by
          unfold escByte
          rw [if_neg h92, if_pos hoct]
        rw [show (b :: w).flatMap escByte
            = '\\' :: Nat.digitChar (b / 64 % 8) :: (Nat.digitChar (b / 8 % 8)
                :: Nat.digitChar (b % 8) :: w.flatMap escByte) by simp [hesc, octal3]] at htake
        simp at htake
        exact octDigitChar_ne_x (Nat.mod_lt _ (by omega)) htake
      · have hraw : isRawByte b = true := by
          simp only [isRawByte, Bool.and_eq_true, decide_eq_true_eq]
          omega
        rw [show (b :: w).flatMap escByte = Char.ofNat b :: w.flatMap escByte by
          simp [escByte_raw hraw]] at htake
        have : Char.ofNat b = '\\' := by
          simp at htake
          exact htake.1
        exact raw_char_ne_backslash hraw this

/-- Test for the lowercase hex alphabet emitted by `%x`. -/
def isHexLower (c : Char) : Bool :=
  isDigitChar c || (decide ('a' ≤ c) && decide (c ≤ 'f'))

theorem digitChar_mem_hexLower {d : Nat} (h : d < 16) : isHexLower (Nat.digitChar d) = true := by
  interval_cases d <;> decide

theorem hexBody_length (v : List Nat) : (hexBody v).length = 2 * v.length := by
  induction v with
  | nil => rfl
  | cons b w ih =>
    simp only [hexBody, List.flatMap_cons] at *
    simp only [List.length_append, List.length_cons, List.length_nil, ih]
    omega

theorem hexBody_mem (v : List Nat) (hv : ∀ b ∈ v, b < 256) :
    ∀ c ∈ hexBody v, isHexLower c = true := by
  induction v with
  | nil => intro c hc; simp [hexBody] at hc
  | cons b w ih =>
    intro c hc
    have hb : b < 256 := hv b (List.mem_cons_self b w)
    simp only [hexBody, List.flatMap_cons, List.mem_append, List.mem_cons,
      List.mem_singleton] at hc
    rcases hc with (rfl | rfl | h) | h
    · exact digitChar_mem_hexLower (by omega)
    · exact digitChar_mem_hexLower (Nat.mod_lt _ (by omega))
    · exact absurd h (by simp)
    · exact ih (fun x hx => hv x (List.mem_cons_of_mem _ hx)) c h

/-- C3: bytea round-trip. Decoding an encoded bytea value returns the
original bytes, for every server version (hex format at version 90000 and
above, escape format below). -/
theorem claim_C3_bytea_roundtrip (serverVersion : Int) (v : List Nat)
    (hv : ∀ b ∈ v, b < 256) :
    parseBytea (encodeBytea serverVersion v) = some v := by
  unfold encodeBytea
  split
  · unfold parseBytea
    rw [if_pos (by constructor <;> simp)]
    simpa using hexDecode_hexBody v hv
  · unfold parseBytea
    rw [if_neg (escape_no_hexMarker v hv)]
    exact parseByteaEscape_flatMap v.length v (Nat.le_refl _) hv

/-- Witness for C3: the round trip at server versions 9.0.0 and 8.4.0 on the
bytes `[0x00, 0x80, 0xff]`. -/
theorem claim_C3_witness :
    parseBytea (encodeBytea 90000 [0, 128, 255]) = some [0, 128, 255]
    ∧ parseBytea (encodeBytea 80400 [0, 128, 255]) = some [0, 128, 255] :=
  ⟨claim_C3_bytea_roundtrip 90000 [0, 128, 255] (by decide),
   claim_C3_bytea_roundtrip 80400 [0, 128, 255] (by decide)⟩

/-- C4: encoding bytes as bytea yields `\x` + lowercase hex at server
version >= 9.0 (so `[0x00, 0x80, 0xff]` becomes the 8-character `\x0080ff`),
and below 9.0 the escape format: backslash doubled, bytes outside
`[0x20, 0x7e]` as backslash plus three octal digits, all other bytes raw
(`[0x00, 0x80, 0xff]` at 8.4.0 becomes `\000\200\377`). -/
theorem claim_C4_encodeBytea :
    encodeBytea 90000 [0, 128, 255] = ['\\', 'x', '0', '0', '8', '0', 'f', 'f']
    ∧ encodeBytea 80400 [0, 128, 255]
        = ['\\', '0', '0', '0', '\\', '2', '0', '0', '\\', '3', '7', '7']
    ∧ (∀ sv : Int, ∀ v : List Nat, 90000 ≤ sv → (∀ b ∈ v, b < 256) →
        ∃ body, encodeBytea sv v = '\\' :: 'x' :: body ∧ body.length = 2 * v.length
          ∧ ∀ c ∈ body, isHexLower c = true)
    ∧ (∀ sv : Int, ∀ b : Nat, sv < 90000 → 32 ≤ b → b ≤ 126 → b ≠ 92 →
        encodeBytea sv [b] = [Char.ofNat b])
    ∧ (∀ sv : Int, ∀ b : Nat, sv < 90000 → (b < 32 ∨ 126 < b) →
        encodeBytea sv [b] = '\\' :: octal3 b)
    ∧ (∀ sv : Int, sv < 90000 → encodeBytea sv [92] = ['\\', '\\']) := by
  refine ⟨by decide, by decide, ?_, ?_, ?_, ?_⟩
  · intro sv v hsv hv
    refine ⟨hexBody v, ?_, hexBody_length v, hexBody_mem v hv⟩
    unfold encodeBytea
    rw [if_pos hsv]
  · intro sv b hsv h32 h126 h92
    unfold encodeBytea
    rw [if_neg (by omega)]
    have : escByte b = [Char.ofNat b] :=
      escByte_raw (by simp only [isRawByte, Bool.and_eq_true, decide_eq_true_eq]; omega)
    simp [this]
  · intro sv b hsv hoct
    unfold encodeBytea
    rw [if_neg (by omega)]
    have h92 : b ≠ 92 := by omega
    have : escByte b = '\\' :: octal3 b := by
      unfold escByte
      rw [if_neg h92, if_pos hoct]
    simp [this]
  · intro sv hsv
    unfold encodeBytea
    rw [if_neg (by omega)]
    simp [escByte]

/-- Witness for C4: instantiating the general conjuncts at server versions
9.0.0 / 8.4.0 and concrete bytes. -/
theorem claim_C4_witness :
    (∃ body, encodeBytea 90000 [0, 128, 255] = '\\' :: 'x' :: body
        ∧ body.length = 2 * ([0, 128, 255] : List Nat).length
        ∧ ∀ c ∈ body, isHexLower c = true)
    ∧ encodeBytea 80400 [65] = [Char.ofNat 65]
    ∧ encodeBytea 80400 [0] = '\\' :: octal3 0
    ∧ encodeBytea 80400 [92] = ['\\', '\\'] :=
  ⟨claim_C4_encodeBytea.2.2.1 90000 [0, 128, 255] (by decide) (by decide),
   claim_C4_encodeBytea.2.2.2.1 80400 65 (by decide) (by decide) (by decide) (by decide),
   claim_C4_encodeBytea.2.2.2.2.1 80400 0 (by decide) (Or.inl (by decide)),
   claim_C4_encodeBytea.2.2.2.2.2 80400 (by decide)⟩
/-! ### OID type registry (src/oid/types.go): the `ArrayType`, `elementType`
and `category` maps populated in `init`, and the `IsArray` / `ElementType` /
`Delimiter` accessors. -/

def oidArrayType : List (Nat × Nat) := [
  (16, 1000), (17, 1001), (18, 1002), (19, 1003), (20, 1016), (21, 1005),
  (22, 1006), (23, 1007), (24, 1008), (25, 1009), (26, 1028), (27, 1010),
  (28, 1011), (29, 1012), (30, 1013), (114, 199), (142, 143), (600, 1017),
  (601, 1018), (602, 1019), (603, 1020), (604, 1027), (628, 629), (650, 651),
  (700, 1021), (701, 1022), (702, 1023), (703, 1024), (704, 1025), (718, 719),
  (790, 791), (829, 1040), (869, 1041), (1033, 1034), (1042, 1014), (1043, 1015),
  (1082, 1182), (1083, 1183), (1114, 1115), (1184, 1185), (1186, 1187), (1266, 1270),
  (1560, 1561), (1562, 1563), (1700, 1231), (1790, 2201), (2202, 2207), (2203, 2208),
  (2204, 2209), (2205, 2210), (2206, 2211), (2249, 2287), (2275, 1263), (2950, 2951),
  (2970, 2949), (3614, 3643), (3615, 3645), (3642, 3644), (3734, 3735), (3769, 3770),
  (3904, 3905), (3906, 3907), (3908, 3909), (3910, 3911), (3912, 3913), (3926, 3927)]

def oidElementType : List (Nat × Nat) := [
  (19, 18), (22, 21), (30, 26), (143, 142), (199, 114), (600, 701),
  (601, 600), (603, 600), (628, 701), (629, 628), (651, 650), (719, 718),
  (791, 790), (1000, 16), (1001, 17), (1002, 18), (1003, 19), (1005, 21),
  (1006, 22), (1007, 23), (1008, 24), (1009, 25), (1010, 27), (1011, 28),
  (1012, 29), (1013, 30), (1014, 1042), (1015, 1043), (1016, 20), (1017, 600),
  (1018, 601), (1019, 602), (1020, 603), (1021, 700), (1022, 701), (1023, 702),
  (1024, 703), (1025, 704), (1027, 604), (1028, 26), (1034, 1033), (1040, 829),
  (1041, 869), (1115, 1114), (1182, 1082), (1183, 1083), (1185, 1184), (1187, 1186),
  (1231, 1700), (1263, 2275), (1270, 1266), (1561, 1560), (1563, 1562), (2201, 1790),
  (2207, 2202), (2208, 2203), (2209, 2204), (2210, 2205), (2211, 2206), (2287, 2249),
  (2949, 2970), (2951, 2950), (3643, 3614), (3644, 3642), (3645, 3615), (3735, 3734),
  (3770, 3769), (3905, 3904), (3907, 3906), (3909, 3908), (3911, 3910), (3913, 3912),
  (3927, 3926)]

def oidCategory : List (Nat × Char) := [
  (16, 'B'), (17, 'U'), (18, 'S'), (19, 'S'), (20, 'N'), (21, 'N'),
  (22, 'A'), (23, 'N'), (24, 'N'), (25, 'S'), (26, 'N'), (27, 'U'),
  (28, 'U'), (29, 'U'), (30, 'A'), (71, 'C'), (75, 'C'), (81, 'C'),
  (83, 'C'), (114, 'U'), (142, 'U'), (143, 'A'), (194, 'S'), (199, 'A'),
  (210, 'U'), (600, 'G'), (601, 'G'), (602, 'G'), (603, 'G'), (604, 'G'),
  (628, 'G'), (629, 'A'), (650, 'I'), (651, 'A'), (700, 'N'), (701, 'N'),
  (702, 'D'), (703, 'T'), (704, 'T'), (705, 'X'), (718, 'G'), (719, 'A'),
  (790, 'N'), (791, 'A'), (829, 'U'), (869, 'I'), (1000, 'A'), (1001, 'A'),
  (1002, 'A'), (1003, 'A'), (1005, 'A'), (1006, 'A'), (1007, 'A'), (1008, 'A'),
  (1009, 'A'), (1010, 'A'), (1011, 'A'), (1012, 'A'), (1013, 'A'), (1014, 'A'),
  (1015, 'A'), (1016, 'A'), (1017, 'A'), (1018, 'A'), (1019, 'A'), (1020, 'A'),
  (1021, 'A'), (1022, 'A'), (1023, 'A'), (1024, 'A'), (1025, 'A'), (1027, 'A'),
  (1028, 'A'), (1033, 'U'), (1034, 'A'), (1040, 'A'), (1041, 'A'), (1042, 'S'),
  (1043, 'S'), (1082, 'D'), (1083, 'D'), (1114, 'D'), (1115, 'A'), (1182, 'A'),
  (1183, 'A'), (1184, 'D'), (1185, 'A'), (1186, 'T'), (1187, 'A'), (1231, 'A'),
  (1248, 'C'), (1263, 'A'), (1266, 'D'), (1270, 'A'), (1560, 'V'), (1561, 'A'),
  (1562, 'V'), (1563, 'A'), (1700, 'N'), (1790, 'U'), (2201, 'A'), (2202, 'N'),
  (2203, 'N'), (2204, 'N'), (2205, 'N'), (2206, 'N'), (2207, 'A'), (2208, 'A'),
  (2209, 'A'), (2210, 'A'), (2211, 'A'), (2249, 'P'), (2275, 'P'), (2276, 'P'),
  (2277, 'P'), (2278, 'P'), (2279, 'P'), (2280, 'P'), (2281, 'P'), (2282, 'P'),
  (2283, 'P'), (2287, 'P'), (2776, 'P'), (2842, 'C'), (2843, 'C'), (2949, 'A'),
  (2950, 'U'), (2951, 'A'), (2970, 'U'), (3115, 'P'), (3500, 'P'), (3614, 'U'),
  (3615, 'U'), (3642, 'U'), (3643, 'A'), (3644, 'A'), (3645, 'A'), (3734, 'N'),
  (3735, 'A'), (3769, 'N'), (3770, 'A'), (3831, 'P'), (3904, 'R'), (3905, 'A'),
  (3906, 'R'), (3907, 'A'), (3908, 'R'), (3909, 'A'), (3910, 'R'), (3911, 'A'),
  (3912, 'R'), (3913, 'A'), (3926, 'R'), (3927, 'A')]

/-- Go map lookup over the literal assignment sequence (keys here are unique,
a missing key gives the zero value, modelled by `none`). -/
def lookupOid {α : Type} : List (Nat × α) → Nat → Option α
  | [], _ => none
  | (k, v) :: t, o => if k = o then some v else lookupOid t o

/-- Go `Oid.IsArray`: `category[typ] == C_array` (missing key yields the zero
Category, which is not `'A'`). -/
def oidIsArray (o : Nat) : Bool := lookupOid oidCategory o = some 'A'

/-- Go `Oid.ElementType`: `elementType[typ]` (missing key yields Oid 0). -/
def oidElementTypeOf (o : Nat) : Nat := (lookupOid oidElementType o).getD 0

/-- Go `Oid.Category`: `category[typ]` (missing key yields the zero Category,
modelled as the NUL character). -/
def oidCategoryOf (o : Nat) : Char := (lookupOid oidCategory o).getD (Char.ofNat 0)

/-- Go `Oid.Delimiter`: `';'` for `box` (OID 603), `','` otherwise. -/
def oidDelimiter (o : Nat) : Char := if o = 603 then ';' else ','

theorem lookupOid_mem {α : Type} (l : List (Nat × α)) (o : Nat) (v : α)
    (h : lookupOid l o = some v) : (o, v) ∈ l := by
  induction l with
  | nil => simp [lookupOid] at h
  | cons p t ih =>
    match p with
    | (k, w) =>
      by_cases hk : k = o
      · subst hk
        rw [lookupOid, if_pos rfl] at h
        injection h with h
        subst h
        exact List.mem_cons_self _ _
      · rw [lookupOid, if_neg hk] at h
        exact List.mem_cons_of_mem _ (ih h)

/-- C7 counterexample: `ArrayType` maps the non-array OID 2249 (`record`) to
2287 (`_record`), and `elementType` maps 2287 back to 2249, but the registry
categorises 2287 as `'P'` (pseudo), so `is_array(2287)` fails. -/
theorem claim_C7_counterexample :
    lookupOid oidArrayType 2249 = some 2287
    ∧ oidIsArray 2249 = false
    ∧ lookupOid oidElementType 2287 = some 2249
    ∧ oidIsArray 2287 = false := by decide

/-- C7 (amended): for every non-array OID `o` with `array_of[o] = a`, the
registry maps `a` back to `o` (`element_of[a] = o`), and `is_array(a)` holds
for every such `a` except `a = 2287` (`_record`), whose category is pseudo. -/
theorem claim_C7_amended (o a : Nat) (h : lookupOid oidArrayType o = some a)
    (hna : oidIsArray o = false) :
    lookupOid oidElementType a = some o ∧ (a = 2287 ∨ oidIsArray a = true) := by
  have hall : ∀ p ∈ oidArrayType,
      lookupOid oidElementType p.2 = some p.1 ∧ (p.2 = 2287 ∨ oidIsArray p.2 = true) := by
    decide
  exact hall (o, a) (lookupOid_mem _ _ _ h)

/-- Witness for the amended C7 at `bool` (16) and its array type (1000). -/
theorem claim_C7_witness :
    lookupOid oidElementType 1000 = some 16 ∧ (1000 = 2287 ∨ oidIsArray 1000 = true) :=
  claim_C7_amended 16 1000 (by decide) (by decide)

/-! ### Text-array codec (src/unnamed/part_007): `arrayConverter.decode`
(four-state automaton over the literal's bytes) and `arrayConverter.encode` /
`encodeArrayString`. -/

inductive AState : Type
  | ready
  | backslash
  | qopened
  | done
deriving DecidableEq, Repr

/-- Loop state of `arrayConverter.decode`: automaton state, collected element
byte strings, current element, and whether the `done`-state `panic` fired. -/
structure TokState : Type where
  st : AState
  strings : List (List Char)
  current : List Char
  panicked : Bool
deriving DecidableEq, Repr

/-- One iteration of the decoder loop.  `length` is the total input length
(the `length > 2` test at `'}'` guards the empty array); `delim` the element
delimiter.  In the `done` state any byte panics. -/
def arrayStep (length : Nat) (delim : Char) (s : TokState) (c : Char) : TokState :=
  if s.panicked then s
  else match s.st with
  | .ready =>
    if c = '{' then s
    else if c = ' ' then s
    else if c = '"' then { s with st := .qopened }
    else if c = '}' then
      { st := .done,
        strings := if 2 < length then s.strings ++ [s.current] else s.strings,
        current := [], panicked := s.panicked }
    else if c = delim then
      { st := .ready, strings := s.strings ++ [s.current], current := [],
        panicked := s.panicked }
    else { s with current := s.current ++ [c] }
  | .backslash =>
    if c = '"' ∨ c = '\\' then { s with st := .qopened, current := s.current ++ [c] }
    else { s with st := .qopened, current := s.current ++ ['\\', c] }
  | .qopened =>
    if c = '\\' then { s with st := .backslash }
    else if c = '"' then { s with st := .ready }
    else { s with current := s.current ++ [c] }
  | .done => { s with panicked := true }

/-- Result of tokenizing one array literal: the element byte strings, the
malformed-array error return, or the `done`-state panic. -/
inductive TokResult : Type
  | ok (toks : List (List Char))
  | err
  | panicked
deriving DecidableEq, Repr

/-- The tokenizing part of `arrayConverter.decode` on a non-nil input: the
three malformed-array checks, then the automaton over all input bytes. -/
def arrayTokenize (delim : Char) (s : List Char) : TokResult :=
  if s.length < 2 then .err
  else if s.head? ≠ some '{' then .err
  else if s.getLast? ≠ some '}' then .err
  else
    let final := s.foldl (arrayStep s.length delim) ⟨.ready, [], [], false⟩
    if final.panicked then .panicked else .ok final.strings

/-- Result of `arrayConverter.decode`, including the nil (SQL NULL) case. -/
inductive ArrDecode (α : Type) : Type
  | null
  | ok (xs : List α)
  | err
  | panicked
deriving DecidableEq, Repr

/-- Go `arrayConverter.decode` with the element decode left as raw bytes (the
registry default): nil input returns nil with no error, otherwise the literal
is tokenized with the delimiter of the array's element type. -/
def arrayDecodeRaw (typ : Nat) (s : Option (List Char)) : ArrDecode (List Char) :=
  match s with
  | none => .null
  | some bytes =>
    match arrayTokenize (oidDelimiter (oidElementTypeOf typ)) bytes with
    | .ok toks => .ok toks
    | .err => .err
    | .panicked => .panicked

/-- Go `arrayConverter.decode` for `_varchar` (1015): element type `varchar`
(1043), delimiter `,`; each tokenized element decodes to its string. -/
def decodeVarcharArray (s : Option (List Char)) : ArrDecode (List Char) :=
  arrayDecodeRaw 1015 s

/-- Go `arrayConverter.decode` for `_int8` (1016): element type `int8` (20),
delimiter `,`; each element is parsed as a decimal int64 (`decode` panics via
`errorf` on a parse failure). -/
def decodeInt8Array (s : Option (List Char)) : ArrDecode Int :=
  match arrayDecodeRaw 1016 s with
  | .null => .null
  | .err => .err
  | .panicked => .panicked
  | .ok toks =>
    match toks.mapM parseInt64 with
    | some vals => .ok vals
    | none => .panicked

/-- Go `unicode.IsSpace`: the Unicode White_Space code points (U+0009-U+000D,
space, NEL, NBSP, ogham space mark, U+2000-U+200A, line and paragraph
separators, narrow no-break space, medium mathematical space, ideographic
space). -/
def goIsSpace (c : Char) : Bool :=
  c = ' ' || c = '\t' || c = '\n' || c = Char.ofNat 11 || c = Char.ofNat 12
    || c = '\r' || c = Char.ofNat 133 || c = Char.ofNat 160
    || c = Char.ofNat 5760
    || (Char.ofNat 8192 ≤ c && c ≤ Char.ofNat 8202)
    || c = Char.ofNat 8232 || c = Char.ofNat 8233
    || c = Char.ofNat 8239 || c = Char.ofNat 8287 || c = Char.ofNat 12288

/-- First pass of `encodeArrayString`: quoting is needed when the first or
last rune is whitespace, or the value contains a quote, backslash, or the
delimiter. -/
def needsEscaping (delim : Char) (s : List Char) : Bool :=
  match s with
  | [] => false
  | c :: rest =>
    if goIsSpace c || goIsSpace ((c :: rest).getLast (List.cons_ne_nil c rest)) then true
    else (c :: rest).any fun r => r = '"' || r = '\\' || r = delim

/-- Second pass of `encodeArrayString`: a quote or backslash gets a backslash
prepended, and every rune is emitted as `byte(r)` (truncation mod 256 — the
identity on ASCII). -/
def escQuote (s : List Char) : List Char :=
  s.flatMap fun r =>
    (if r = '"' ∨ r = '\\' then ['\\'] else []) ++ [Char.ofNat (r.toNat % 256)]

/-- Go `encodeArrayString(s, delimiter)`: empty becomes `""`, the exact string
`NULL` becomes `"NULL"`, values needing quoting are quoted with escapes, and
everything else is emitted bare. -/
def encodeArrayString (delim : Char) (s : List Char) : List Char :=
  if s.length = 0 then ['"', '"']
  else if s = ['N', 'U', 'L', 'L'] then ['"', 'N', 'U', 'L', 'L', '"']
  else if needsEscaping delim s then '"' :: escQuote s ++ ['"']
  else s

/-- Delimiter-joined element encodings, as built by the loop in
`arrayConverter.encode` (delimiter before every element except the first). -/
def arrayJoin (delim : Char) : List (List Char) → List Char
  | [] => []
  | [e] => e
  | e :: rest => e ++ delim :: arrayJoin delim rest

/-- Go `arrayConverter.encode` for `_varchar`: string-category elements go
through `encodeArrayString` with the element delimiter `,`. -/
def encodeVarcharArray (v : List (List Char)) : List Char :=
  '{' :: arrayJoin ',' (v.map (encodeArrayString ',')) ++ ['}']

/-- Go `arrayConverter.encode` for `_int8`: non-string elements go through the
scalar `encode`, which prints an `int64` as decimal `%d`. -/
def encodeInt8Array (v : List Int) : List Char :=
  '{' :: arrayJoin ',' (v.map intToDec) ++ ['}']

/-- Go `arrayConverter.encode` for `_float8` (1022): non-string elements go
through the scalar `encode`, whose float64 case is `fmt.Sprintf("%g", v)`.
That codec belongs to the Go standard library, not to this repository, and
is abstracted as the parameter `fmtG`. -/
def encodeFloat8Array {F : Type} (fmtG : F → List Char) (v : List F) : List Char :=
  '{' :: arrayJoin ',' (v.map fmtG) ++ ['}']

/-- Go `arrayConverter.decode` for `_float8` (1022): element type `float8`
(701), delimiter `,`; each element goes through the scalar decode's
`strconv.ParseFloat(string(s), 64)`, abstracted as the parameter `parseF`
(a parse failure panics via `errorf`). -/
def decodeFloat8Array {F : Type} (parseF : List Char → Option F)
    (s : Option (List Char)) : ArrDecode F :=
  match arrayDecodeRaw 1022 s with
  | .null => .null
  | .err => .err
  | .panicked => .panicked
  | .ok toks =>
    match toks.mapM parseF with
    | some vals => .ok vals
    | none => .panicked

/-- C9: decoding a nil byte slice (SQL NULL) returns nil and no error for
every array OID; nil is not treated as a malformed literal. -/
theorem claim_C9_nil_array (typ : Nat) : arrayDecodeRaw typ none = ArrDecode.null :=
  rfl

/-- C10: the decoder panics (reaches `done` before the last byte) on the
two-dimensional literal `{{1,2},{3,4}}` rather than returning an error, and
the error return happens exactly for inputs shorter than two bytes or not
brace-delimited. -/
theorem claim_C10_done_panic :
    arrayDecodeRaw 1007 (some ['{', '{', '1', ',', '2', '}', ',', '{', '3', ',', '4', '}', '}'])
      = ArrDecode.panicked
    ∧ ∀ (delim : Char) (s : List Char),
        arrayTokenize delim s = TokResult.err ↔
          (s.length < 2 ∨ s.head? ≠ some '{' ∨ s.getLast? ≠ some '}') := by
  refine ⟨by decide, ?_⟩
  intro delim s
  unfold arrayTokenize
  by_cases h1 : s.length < 2
  · simp [h1]
  · rw [if_neg h1]
    by_cases h2 : s.head? ≠ some '{'
    · simp [h1, h2]
    · rw [if_neg h2]
      by_cases h3 : s.getLast? ≠ some '}'
      · simp [h1, h2, h3]
      · rw [if_neg h3]
        constructor
        · intro h
          simp only at h
          split at h <;> exact absurd h (by simp)
        · intro h
          rcases h with h | h | h <;> contradiction

/-- Processing plain bytes in the `ready` state appends them to the current
element (bytes that are none of `{`, space, `"`, `}`, the delimiter). -/
theorem run_ready_plain (len : Nat) (delim : Char) (acc : List (List Char))
    (cur : List Char) (s : List Char)
    (hs : ∀ c ∈ s, ¬(c = '{' ∨ c = ' ' ∨ c = '"' ∨ c = '}' ∨ c = delim)) :
    s.foldl (arrayStep len delim) ⟨AState.ready, acc, cur, false⟩
      = ⟨AState.ready, acc, cur ++ s, false⟩ := by
  induction s generalizing cur with
  | nil => simp
  | cons c rest ih =>
    have hc := hs c (List.mem_cons_self c rest)
    push_neg at hc
    obtain ⟨h1, h2, h3, h4, h5⟩ := hc
    rw [List.foldl_cons,
      show arrayStep len delim ⟨AState.ready, acc, cur, false⟩ c
          = ⟨AState.ready, acc, cur ++ [c], false⟩ by
        unfold arrayStep
        simp [h1, h2, h3, h4, h5],
      ih _ fun x hx => hs x (List.mem_cons_of_mem _ hx)]
    simp

/-- Processing the escaped body of a quoted element from the `qopened` state
recovers the original bytes in the current element (ASCII data, where the
`byte(r)` truncation is the identity). -/
theorem run_qopened_esc (len : Nat) (delim : Char) (acc : List (List Char))
    (cur : List Char) (s : List Char) (ha : ∀ c ∈ s, c.toNat < 128) :
    (escQuote s).foldl (arrayStep len delim) ⟨AState.qopened, acc, cur, false⟩
      = ⟨AState.qopened, acc, cur ++ s, false⟩ := by
  induction s generalizing cur with
  | nil => simp [escQuote]
  | cons c rest ih =>
    have hc : c.toNat < 128 := ha c (List.mem_cons_self c rest)
    have hby : Char.ofNat (c.toNat % 256) = c := by
      rw [Nat.mod_eq_of_lt (by omega), Char.ofNat_toNat]
    have hrest := fun x hx => ha x (List.mem_cons_of_mem _ hx)
    by_cases hq : c = '"' ∨ c = '\\'
    · rw [show escQuote (c :: rest) = '\\' :: Char.ofNat (c.toNat % 256) :: escQuote rest by
        simp [escQuote, hq], hby, List.foldl_cons, List.foldl_cons,
        show arrayStep len delim ⟨AState.qopened, acc, cur, false⟩ '\\'
            = ⟨AState.backslash, acc, cur, false⟩ by
          unfold arrayStep
          simp,
        show arrayStep len delim ⟨AState.backslash, acc, cur, false⟩ c
            = ⟨AState.qopened, acc, cur ++ [c], false⟩ by
          unfold arrayStep
          simp [hq],
        ih _ hrest]
      simp
    · push_neg at hq
      rw [show escQuote (c :: rest) = Char.ofNat (c.toNat % 256) :: escQuote rest by
        simp [escQuote, hq.1, hq.2], hby, List.foldl_cons,
        show arrayStep len delim ⟨AState.qopened, acc, cur, false⟩ c
            = ⟨AState.qopened, acc, cur ++ [c], false⟩ by
          unfold arrayStep
          simp [hq.1, hq.2],
        ih _ hrest]
      simp

/-- A quoted element (`"` + escaped body + `"`) starting in `ready` with an
empty current element tokenizes back to the original bytes. -/
theorem run_quoted (len : Nat) (delim : Char) (acc : List (List Char))
    (s : List Char) (ha : ∀ c ∈ s, c.toNat < 128) :
    ('"' :: escQuote s ++ ['"']).foldl (arrayStep len delim) ⟨AState.ready, acc, [], false⟩
      = ⟨AState.ready, acc, s, false⟩ := by
  have h1 : List.foldl (arrayStep len delim) ⟨AState.ready, acc, [], false⟩ ('"' :: escQuote s)
      = ⟨AState.qopened, acc, s, false⟩ := by
    rw [List.foldl_cons,
      show arrayStep len delim ⟨AState.ready, acc, [], false⟩ '"'
          = ⟨AState.qopened, acc, [], false⟩ by
        unfold arrayStep
        simp,
      run_qopened_esc len delim acc [] s ha]
    simp
  rw [List.foldl_append, h1]
  show arrayStep len delim ⟨AState.qopened, acc, s, false⟩ '"' = _
  unfold arrayStep
  simp

/-- An encoded element `e` tokenizes from `ready` (with empty current element)
back to the element bytes `d`, for every total length and accumulator. -/
def ElemRuns (delim : Char) (e d : List Char) : Prop :=
  ∀ (len : Nat) (acc : List (List Char)),
    e.foldl (arrayStep len delim) ⟨AState.ready, acc, [], false⟩
      = ⟨AState.ready, acc, d, false⟩

/-- Conditions under which a string survives the encode/decode round trip:
empty and `NULL` are emitted quoted verbatim; a value the encoder quotes
round-trips when all its code points are ASCII (the escape loop's `byte(r)`
truncation is then the identity); a bare value round-trips when it contains
none of the bytes the bare-element decoder treats specially (space and
braces; quote, backslash and the delimiter are already excluded by
`needsEscaping` being false).  Bare elements may contain non-ASCII code
points: every byte of a multi-byte UTF-8 rune is at least 0x80 and so never
one of the tokenizer's special bytes, making the rune-level model agree with
the byte-level Go decoder there. -/
def stringArraySafe (delim : Char) (s : List Char) : Prop :=
  s = [] ∨ s = ['N', 'U', 'L', 'L'] ∨
  (needsEscaping delim s = true ∧ ∀ c ∈ s, c.toNat < 128) ∨
  (needsEscaping delim s = false ∧ ∀ c ∈ s, ¬(c = ' ' ∨ c = '{' ∨ c = '}'))

theorem needsEscaping_false_no_special (delim : Char) (s : List Char)
    (h : needsEscaping delim s = false) :
    ∀ c ∈ s, ¬(c = '"' ∨ c = '\\' ∨ c = delim) := by
  cases s with
  | nil => intro c hc; simp at hc
  | cons c0 rest =>
    rw [needsEscaping] at h
    split at h
    · simp at h
    · intro c hc hor
      have hany : ((c0 :: rest).any fun r => r = '"' || r = '\\' || r = delim) = true := by
        refine List.any_eq_true.mpr ⟨c, hc, ?_⟩
        rcases hor with h1 | h1 | h1 <;> simp [h1]
      rw [h] at hany
      simp at hany

theorem elemRuns_encodeArrayString (delim : Char) (s : List Char)
    (hsafe : stringArraySafe delim s) :
    ElemRuns delim (encodeArrayString delim s) s := by
  intro len acc
  by_cases h0 : s.length = 0
  · rw [List.length_eq_zero.mp h0]
    rw [show encodeArrayString delim [] = ['"', '"'] from rfl, List.foldl_cons,
      show arrayStep len delim ⟨AState.ready, acc, [], false⟩ '"'
          = ⟨AState.qopened, acc, [], false⟩ by
        unfold arrayStep
        simp]
    show arrayStep len delim ⟨AState.qopened, acc, [], false⟩ '"' = _
    unfold arrayStep
    simp
  · by_cases hnull : s = ['N', 'U', 'L', 'L']
    · subst hnull
      rw [show encodeArrayString delim ['N', 'U', 'L', 'L'] = ['"', 'N', 'U', 'L', 'L', '"'] by
        unfold encodeArrayString
        rw [if_neg (by simp), if_pos rfl],
      show (['"', 'N', 'U', 'L', 'L', '"'] : List Char)
          = ('"' :: escQuote ['N', 'U', 'L', 'L']) ++ ['"'] by decide]
      exact run_quoted len delim acc ['N', 'U', 'L', 'L'] (by decide)
    · by_cases hesc : needsEscaping delim s = true
      · have hascii : ∀ c ∈ s, c.toNat < 128 := by
          rcases hsafe with h | h | h | h
          · exact absurd (h ▸ rfl) h0
          · exact absurd h hnull
          · exact h.2
          · exact absurd hesc (by simp [h.1])
        rw [show encodeArrayString delim s = ('"' :: escQuote s) ++ ['"'] by
          unfold encodeArrayString
          rw [if_neg h0, if_neg hnull, if_pos hesc]]
        exact run_quoted len delim acc s hascii
      · have hbare : encodeArrayString delim s = s := by
          unfold encodeArrayString
          rw [if_neg h0, if_neg hnull, if_neg hesc]
        have hnsp := needsEscaping_false_no_special delim s (Bool.not_eq_true _ ▸ hesc)
        have hplain : ∀ c ∈ s, ¬(c = ' ' ∨ c = '{' ∨ c = '}') := by
          rcases hsafe with h | h | h | h
          · exact absurd (h ▸ rfl) h0
          · exact absurd h hnull
          · exact absurd h.1 hesc
          · exact h.2
        rw [hbare, run_ready_plain len delim acc [] s ?hs]
        · simp
        case hs =>
          intro c hc hor
          rcases hor with h | h | h | h | h
          · exact hplain c hc (Or.inr (Or.inl h))
          · exact hplain c hc (Or.inl h)
          · exact hnsp c hc (Or.inl h)
          · exact hplain c hc (Or.inr (Or.inr h))
          · exact hnsp c hc (Or.inr (Or.inr h))

/-- Running the delimiter-joined element encodings from `ready`: every element
but the last has been flushed into `strings` by its following delimiter; the
last one is still in `current`. -/
theorem run_join_elems (len : Nat) (delim : Char)
    (hd : ¬(delim = '{' ∨ delim = ' ' ∨ delim = '"' ∨ delim = '}'))
    (E D : List (List Char)) (h : List.Forall₂ (ElemRuns delim) E D) :
    ∀ (e d : List Char), ElemRuns delim e d →
      ∀ acc, (arrayJoin delim (e :: E)).foldl (arrayStep len delim) ⟨AState.ready, acc, [], false⟩
        = ⟨AState.ready, acc ++ (d :: D).dropLast, ((d :: D).getLast?).getD [], false⟩ := by
  induction h with
  | nil =>
    intro e d he acc
    rw [show arrayJoin delim [e] = e from rfl, he len acc]
    simp
  | cons he' htail ih =>
    rename_i e' d' E' D'
    intro e d he acc
    push_neg at hd
    obtain ⟨hd1, hd2, hd3, hd4⟩ := hd
    rw [show arrayJoin delim (e :: e' :: E') = e ++ delim :: arrayJoin delim (e' :: E') from rfl,
      List.foldl_append, he len acc, List.foldl_cons,
      show arrayStep len delim ⟨AState.ready, acc, d, false⟩ delim
          = ⟨AState.ready, acc ++ [d], [], false⟩ by
        unfold arrayStep
        simp [hd1, hd2, hd3, hd4],
      ih e' d' he' (acc ++ [d])]
    simp

/-- Tokenizing an encoded array literal recovers the element byte strings,
provided every encoded element runs cleanly and is nonempty. -/
theorem arrayTokenize_roundtrip (delim : Char)
    (hd : ¬(delim = '{' ∨ delim = ' ' ∨ delim = '"' ∨ delim = '}'))
    (E D : List (List Char)) (h : List.Forall₂ (ElemRuns delim) E D)
    (hne : ∀ e ∈ E, e ≠ []) :
    arrayTokenize delim ('{' :: arrayJoin delim E ++ ['}']) = TokResult.ok D := by
  cases h with
  | nil =>
    rw [show ('{' :: arrayJoin delim [] ++ ['}']) = ['{', '}'] from rfl]
    unfold arrayTokenize
    rw [if_neg (by simp), if_neg (by simp), if_neg (by simp)]
    simp only
    rw [show List.foldl (arrayStep (['{', '}'] : List Char).length delim)
        ⟨AState.ready, [], [], false⟩ ['{', '}']
        = ⟨AState.done, [], [], false⟩ by
      rw [List.foldl_cons,
        show arrayStep (['{', '}'] : List Char).length delim ⟨AState.ready, [], [], false⟩ '{'
            = ⟨AState.ready, [], [], false⟩ by
          unfold arrayStep
          simp]
      show arrayStep _ delim ⟨AState.ready, [], [], false⟩ '}' = _
      unfold arrayStep
      simp]
    rfl
  | cons he htail =>
    rename_i e d E' D'
    have hJne : arrayJoin delim (e :: E') ≠ [] := by
      cases E' with
      | nil => exact hne e (List.mem_cons_self e [])
      | cons e2 t =>
        rw [show arrayJoin delim (e :: e2 :: t) = e ++ delim :: arrayJoin delim (e2 :: t)
          from rfl]
        simp
    have hlast : ((d :: D').getLast?).getD [] = (d :: D').getLast (by simp) := by
      rw [List.getLast?_eq_getLast (d :: D') (by simp)]
      rfl
    have hgt : 2 < ('{' :: arrayJoin delim (e :: E') ++ ['}']).length := by
      have hpos : 0 < (arrayJoin delim (e :: E')).length := List.length_pos.mpr hJne
      simp only [List.cons_append, List.length_cons, List.length_append, List.length_nil]
      omega
    have hrun : List.foldl (arrayStep ('{' :: arrayJoin delim (e :: E') ++ ['}']).length delim)
        ⟨AState.ready, [], [], false⟩ ('{' :: arrayJoin delim (e :: E'))
        = ⟨AState.ready, [] ++ (d :: D').dropLast, ((d :: D').getLast?).getD [], false⟩ := by
      rw [List.foldl_cons,
        show arrayStep ('{' :: arrayJoin delim (e :: E') ++ ['}']).length delim
            ⟨AState.ready, [], [], false⟩ '{' = ⟨AState.ready, [], [], false⟩ by
          unfold arrayStep
          simp,
        run_join_elems _ delim hd E' D' htail e d he []]
    unfold arrayTokenize
    rw [if_neg (by simp), if_neg (by simp),
      if_neg (by
        rw [List.getLast?_concat]
        simp)]
    simp only
    rw [List.foldl_append, hrun,
      show List.foldl (arrayStep ('{' :: arrayJoin delim (e :: E') ++ ['}']).length delim)
          ⟨AState.ready, [] ++ (d :: D').dropLast, ((d :: D').getLast?).getD [], false⟩ ['}']
          = ⟨AState.done, ([] ++ (d :: D').dropLast) ++ [((d :: D').getLast?).getD []],
              [], false⟩ by
        rw [List.foldl_cons, List.foldl_nil]
        unfold arrayStep
        simp [hgt, hJne]]
    simp only [List.nil_append]
    rw [hlast, List.dropLast_concat_getLast (l := d :: D') (by simp)]
    rfl

theorem isDigitChar_not_special {c : Char} (h : isDigitChar c = true) :
    ¬(c = '{' ∨ c = ' ' ∨ c = '"' ∨ c = '}' ∨ c = ',') := by
  intro hor
  rcases hor with h1 | h1 | h1 | h1 | h1 <;> subst h1 <;> exact absurd h (by decide)

theorem intToDec_not_special (n : Int) :
    ∀ c ∈ intToDec n, ¬(c = '{' ∨ c = ' ' ∨ c = '"' ∨ c = '}' ∨ c = ',') := by
  intro c hc
  unfold intToDec at hc
  split at hc
  · rcases List.mem_cons.mp hc with rfl | hmem
    · decide
    · exact isDigitChar_not_special (natDigits_all_digit _ c hmem)
  · exact isDigitChar_not_special (natDigits_all_digit _ c hc)

theorem intToDec_ne_nil (n : Int) : intToDec n ≠ [] := by
  unfold intToDec
  split
  · simp
  · exact natDigits_ne_nil _

theorem encodeArrayString_ne_nil (delim : Char) (s : List Char) :
    encodeArrayString delim s ≠ [] := by
  unfold encodeArrayString
  split
  · simp
  · split
    · simp
    · split
      · simp
      · rename_i h0 _ _
        exact fun he => h0 (by rw [he]; rfl)

theorem elemRuns_intToDec (n : Int) : ElemRuns ',' (intToDec n) (intToDec n) := by
  intro len acc
  rw [run_ready_plain len ',' acc [] _ (intToDec_not_special n)]
  simp

theorem forall2_elemRuns_int8 (v : List Int) :
    List.Forall₂ (ElemRuns ',') (v.map intToDec) (v.map intToDec) := by
  induction v with
  | nil => exact List.Forall₂.nil
  | cons n t ih => exact List.Forall₂.cons (elemRuns_intToDec n) ih

theorem forall2_elemRuns_varchar (v : List (List Char)) (hv : ∀ s ∈ v, stringArraySafe ',' s) :
    List.Forall₂ (ElemRuns ',') (v.map (encodeArrayString ',')) v := by
  induction v with
  | nil => exact List.Forall₂.nil
  | cons s t ih =>
    exact List.Forall₂.cons
      (elemRuns_encodeArrayString ',' s (hv s (List.mem_cons_self s t)))
      (ih fun x hx => hv x (List.mem_cons_of_mem _ hx))

theorem elemRuns_plainEnc {F : Type} (enc : F → List Char)
    (hok : ∀ x : F, ∀ c ∈ enc x, ¬(c = '{' ∨ c = ' ' ∨ c = '"' ∨ c = '}' ∨ c = ','))
    (x : F) : ElemRuns ',' (enc x) (enc x) := by
  intro len acc
  rw [run_ready_plain len ',' acc [] _ (hok x)]
  simp

theorem forall2_elemRuns_plainEnc {F : Type} (enc : F → List Char)
    (hok : ∀ x : F, ∀ c ∈ enc x, ¬(c = '{' ∨ c = ' ' ∨ c = '"' ∨ c = '}' ∨ c = ','))
    (v : List F) : List.Forall₂ (ElemRuns ',') (v.map enc) (v.map enc) := by
  induction v with
  | nil => exact List.Forall₂.nil
  | cons x t ih => exact List.Forall₂.cons (elemRuns_plainEnc enc hok x) ih

theorem mapM_roundtrip_map {F : Type} (enc : F → List Char) (dec : List Char → Option F)
    (hinv : ∀ x : F, dec (enc x) = some x) (v : List F) :
    (v.map enc).mapM dec = some v := by
  induction v with
  | nil => rfl
  | cons x t ih =>
    simp only [List.map_cons, List.mapM_cons, hinv x, ih]
    rfl

theorem mapM_parseInt64_map (v : List Int) (hv : ∀ n ∈ v, -(2 ^ 63) ≤ n ∧ n < 2 ^ 63) :
    (v.map intToDec).mapM parseInt64 = some v := by
  induction v with
  | nil => rfl
  | cons n t ih =>
    have hn := hv n (List.mem_cons_self n t)
    simp only [List.map_cons, List.mapM_cons, parseInt64_intToDec n hn.1 hn.2,
      ih fun x hx => hv x (List.mem_cons_of_mem _ hx)]
    rfl

theorem arrayDecodeRaw_some (typ : Nat) (bytes : List Char) :
    arrayDecodeRaw typ (some bytes)
      = match arrayTokenize (oidDelimiter (oidElementTypeOf typ)) bytes with
        | TokResult.ok toks => ArrDecode.ok toks
        | TokResult.err => ArrDecode.err
        | TokResult.panicked => ArrDecode.panicked := rfl

instance stringArraySafe_decidable (delim : Char) (s : List Char) :
    Decidable (stringArraySafe delim s) := by
  unfold stringArraySafe
  infer_instance

/-- C1 counterexample: the single-element string vector `["a b"]` does not
round-trip.  `encodeArrayString` leaves `a b` bare (no leading/trailing
whitespace, no quote/backslash/delimiter), and the decoder's `ready` state
silently drops the interior space, yielding `["ab"]`. -/
theorem claim_C1_counterexample :
    decodeVarcharArray (some (encodeVarcharArray [['a', ' ', 'b']]))
      = ArrDecode.ok [['a', 'b']]
    ∧ decodeVarcharArray (some (encodeVarcharArray [['a', ' ', 'b']]))
      ≠ ArrDecode.ok [['a', ' ', 'b']] := by
  constructor <;> decide

/-- C1 (amended): the array round trip holds (a) for int64 vectors; (b) for
float64 vectors whenever the scalar float codec round-trips each value — the
`%g`/`ParseFloat` pair belongs to the Go standard library and is abstracted
as `fmtG`/`parseF` with nonempty output free of the tokenizer's special
bytes, which `%g` (shortest uniquely-parsing decimal) satisfies for finite
floats; (c) for string vectors whose elements are each empty, exactly
`NULL`, quoted by the encoder with all code points ASCII, or bare and free
of space and curly-brace bytes. -/
theorem claim_C1_amended :
    (∀ v : List Int, (∀ n ∈ v, -(2 ^ 63) ≤ n ∧ n < 2 ^ 63) →
        decodeInt8Array (some (encodeInt8Array v)) = ArrDecode.ok v)
    ∧ (∀ (F : Type) (fmtG : F → List Char) (parseF : List Char → Option F),
        (∀ x : F, parseF (fmtG x) = some x) →
        (∀ x : F, fmtG x ≠ []) →
        (∀ x : F, ∀ c ∈ fmtG x, ¬(c = '{' ∨ c = ' ' ∨ c = '"' ∨ c = '}' ∨ c = ',')) →
        ∀ v : List F,
          decodeFloat8Array parseF (some (encodeFloat8Array fmtG v)) = ArrDecode.ok v)
    ∧ (∀ v : List (List Char), (∀ s ∈ v, stringArraySafe ',' s) →
        decodeVarcharArray (some (encodeVarcharArray v)) = ArrDecode.ok v) := by
  have hd : ¬((',' : Char) = '{' ∨ (',' : Char) = ' ' ∨ (',' : Char) = '"'
      ∨ (',' : Char) = '}') := by decide
  refine ⟨?_, ?_, ?_⟩
  · intro v hv
    have hne : ∀ e ∈ v.map intToDec, e ≠ [] := by
      intro e he
      obtain ⟨n, _, rfl⟩ := List.mem_map.mp he
      exact intToDec_ne_nil n
    have htok := arrayTokenize_roundtrip ',' hd (v.map intToDec) (v.map intToDec)
      (forall2_elemRuns_int8 v) hne
    unfold decodeInt8Array encodeInt8Array
    rw [arrayDecodeRaw_some, show oidDelimiter (oidElementTypeOf 1016) = ',' by decide, htok]
    show (match (v.map intToDec).mapM parseInt64 with
      | some vals => ArrDecode.ok vals
      | none => ArrDecode.panicked) = ArrDecode.ok v
    rw [mapM_parseInt64_map v hv]
  · intro F fmtG parseF hinv hne0 hok v
    have hne : ∀ e ∈ v.map fmtG, e ≠ [] := by
      intro e he
      obtain ⟨x, _, rfl⟩ := List.mem_map.mp he
      exact hne0 x
    have htok := arrayTokenize_roundtrip ',' hd (v.map fmtG) (v.map fmtG)
      (forall2_elemRuns_plainEnc fmtG hok v) hne
    unfold decodeFloat8Array encodeFloat8Array
    rw [arrayDecodeRaw_some, show oidDelimiter (oidElementTypeOf 1022) = ',' by decide, htok]
    show (match (v.map fmtG).mapM parseF with
      | some vals => ArrDecode.ok vals
      | none => ArrDecode.panicked) = ArrDecode.ok v
    rw [mapM_roundtrip_map fmtG parseF hinv v]
  · intro v hv
    have hne : ∀ e ∈ v.map (encodeArrayString ','), e ≠ [] := by
      intro e he
      obtain ⟨s, _, rfl⟩ := List.mem_map.mp he
      exact encodeArrayString_ne_nil ',' s
    have htok := arrayTokenize_roundtrip ',' hd (v.map (encodeArrayString ',')) v
      (forall2_elemRuns_varchar v hv) hne
    unfold decodeVarcharArray encodeVarcharArray
    rw [arrayDecodeRaw_some, show oidDelimiter (oidElementTypeOf 1015) = ',' by decide, htok]

/-- Witness for the amended C1: an int64 vector; the scalar-codec conjunct
instantiated with the decimal Nat codec; and a string vector covering the
empty, `NULL`, bare ASCII, bare non-ASCII, and quoted cases. -/
theorem claim_C1_witness :
    decodeInt8Array (some (encodeInt8Array [1, -2, 3])) = ArrDecode.ok [1, -2, 3]
    ∧ decodeFloat8Array parseUnsigned (some (encodeFloat8Array natDigits [3, 14]))
      = ArrDecode.ok [3, 14]
    ∧ decodeVarcharArray
        (some (encodeVarcharArray [[], ['N', 'U', 'L', 'L'], ['a'], ['é'], ['x', ',', 'y']]))
      = ArrDecode.ok [[], ['N', 'U', 'L', 'L'], ['a'], ['é'], ['x', ',', 'y']] :=
  ⟨claim_C1_amended.1 [1, -2, 3] (by decide),
   claim_C1_amended.2.1 Nat natDigits parseUnsigned
     (fun x => parseUnsigned_natDigits x) (fun x => natDigits_ne_nil x)
     (fun x c hc => isDigitChar_not_special (natDigits_all_digit x c hc)) [3, 14],
   claim_C1_amended.2.2 [[], ['N', 'U', 'L', 'L'], ['a'], ['é'], ['x', ',', 'y']]
     (by decide)⟩

/-! ### Command-tag parsing (src/stmt.go, `parseComplete` lines 217-260). -/

/-- The known prefixes carrying an affected-row count (INSERT handled apart). -/
def commandsWithAffectedRows : List (List Char) :=
  [['S', 'E', 'L', 'E', 'C', 'T', ' '],
   ['U', 'P', 'D', 'A', 'T', 'E', ' '],
   ['D', 'E', 'L', 'E', 'T', 'E', ' '],
   ['F', 'E', 'T', 'C', 'H', ' '],
   ['M', 'O', 'V', 'E', ' '],
   ['C', 'O', 'P', 'Y', ' ']]

/-- Go `parseComplete(commandTag)`: strip a known prefix and parse the remainder
as int64; an `INSERT <oid> <rows>` tag takes the last of exactly three
space-separated tokens; otherwise 0 rows and the tag as-is.  Errors model the
`errorf` panics. -/
def parseComplete (commandTag : List Char) : Except (List Char) (Int × List Char) :=
  match commandsWithAffectedRows.find? fun tag => tag.isPrefixOf commandTag with
  | some tag =>
    match parseInt64 (commandTag.drop tag.length) with
    | some n => Except.ok (n, tag.dropLast)
    | none => Except.error ("could not parse commandTag".toList)
  | none =>
    if (['I', 'N', 'S', 'E', 'R', 'T', ' '] : List Char).isPrefixOf commandTag then
      match commandTag.splitOn ' ' with
      | [_p1, _p2, p3] =>
        match parseInt64 p3 with
        | some n => Except.ok (n, ['I', 'N', 'S', 'E', 'R', 'T'])
        | none => Except.error ("could not parse commandTag".toList)
      | _ => Except.error ("unexpected INSERT command tag".toList)
    else Except.ok (0, commandTag)

/-- C5: `parseComplete` strips a known command prefix and parses the remainder
as int64; `INSERT 0 3` takes the last of its three tokens, yielding 3 with
tag `INSERT`; an unrecognized tag yields 0 rows and the tag as-is. -/
theorem claim_C5_parseComplete :
    parseComplete ("INSERT 0 3".toList) = Except.ok ((3 : Int), "INSERT".toList)
    ∧ (∀ tag ∈ commandsWithAffectedRows, ∀ n : Int, -(2 ^ 63) ≤ n → n < 2 ^ 63 →
        parseComplete (tag ++ intToDec n) = Except.ok (n, tag.dropLast))
    ∧ (∀ tag : List Char, (∀ p ∈ commandsWithAffectedRows, ¬p.isPrefixOf tag)
        → ¬((['I', 'N', 'S', 'E', 'R', 'T', ' '] : List Char).isPrefixOf tag)
        → parseComplete tag = Except.ok ((0 : Int), tag)) := by
  refine ⟨rfl, ?_, ?_⟩
  · intro tag htag n h1 h2
    fin_cases htag <;>
      simp [parseComplete, commandsWithAffectedRows, List.find?, List.isPrefixOf,
        parseInt64_intToDec n h1 h2]
  · intro tag hnp hni
    unfold parseComplete
    rw [List.find?_eq_none.mpr fun x hx => by simpa using hnp x hx, if_neg hni]

/-- Witness for C5: a `SELECT 5` tag and an unrecognized `CREATE TABLE` tag. -/
theorem claim_C5_witness :
    parseComplete (['S', 'E', 'L', 'E', 'C', 'T', ' '] ++ intToDec 5)
      = Except.ok ((5 : Int), "SELECT".toList)
    ∧ parseComplete ("CREATE TABLE".toList) = Except.ok ((0 : Int), "CREATE TABLE".toList) :=
  ⟨claim_C5_parseComplete.2.1 ['S', 'E', 'L', 'E', 'C', 'T', ' '] (by decide) 5
      (by decide) (by decide),
   claim_C5_parseComplete.2.2 "CREATE TABLE".toList (by decide) (by decide)⟩

/-! ### Timestamp parser (src/unnamed/part_001, `parseTs` lines 207-289, with
`mustAtoi` and `expect`).  The claim's scenario has a nil session time zone,
for which the final location reinterpretation (lines 278-287) is the
identity, so the parsed `time.Date` arguments are returned directly. -/

/-- Go slice `str[a:b]`: `none` models the bounds panic. -/
def goSlice (s : List Char) (a b : Nat) : Option (List Char) :=
  if a ≤ b ∧ b ≤ s.length then some ((s.drop a).take (b - a)) else none

/-- Go slice in the error monad. -/
def goSliceE (s : List Char) (a b : Nat) : Except (List Char) (List Char) :=
  match goSlice s a b with
  | some l => Except.ok l
  | none => Except.error ("slice bounds out of range".toList)

/-- Go `mustAtoi`: `strconv.Atoi`, with `errorf` on failure. -/
def mustAtoi (s : List Char) : Except (List Char) Int :=
  match parseInt64 s with
  | some n => Except.ok n
  | none => Except.error ("expected number".toList)

/-- Go `expect(str, char, pos)`: `errorf` unless `str[pos:pos+1]` is `char`. -/
def expectChar (s : List Char) (c : Char) (pos : Nat) : Except (List Char) Unit := do
  let sl ← goSliceE s pos (pos + 1)
  if sl = [c] then pure () else Except.error ("expected char".toList)

/-- The nanosecond contribution of the fractional-seconds section:
`fracSec * (1000000000 / int(math.Pow(10, float64(fracOff))))` (the power is
exact for the exponents a parse can produce). -/
def fracNano (fracSec : Int) (fracOff : Nat) : Int :=
  fracSec * (1000000000 / (10 : Int) ^ fracOff)

/-- The arguments `parseTs` passes to `time.Date` (with the zone as the
`FixedZone` offset in seconds). -/
structure GoTime : Type where
  year : Int
  month : Int
  day : Int
  hour : Int
  minute : Int
  second : Int
  nsec : Int
  tzOff : Int
deriving DecidableEq, Repr

/-- Go `parseTs(nil, str)`: index-based parse of `YYYY-MM-DD[ HH:MM:SS[.fff][±TZ][ BC]]`. -/
def parseTs (str : List Char) : Except (List Char) GoTime := do
  let monSep ← match str.findIdx? fun c => c = '-' with
    | some i => Except.ok i
    | none => Except.error ("slice bounds out of range".toList)
  let year ← mustAtoi (str.take monSep)
  let daySep := monSep + 3
  let month ← mustAtoi (← goSliceE str (monSep + 1) daySep)
  _ ← expectChar str '-' daySep
  let timeSep := daySep + 3
  let day ← mustAtoi (← goSliceE str (daySep + 1) timeSep)
  let mut hour : Int := 0
  let mut minute : Int := 0
  let mut second : Int := 0
  if str.length > monSep + 6 then
    _ ← expectChar str ' ' timeSep
    let minSep := timeSep + 3
    _ ← expectChar str ':' minSep
    hour ← mustAtoi (← goSliceE str (timeSep + 1) minSep)
    let secSep := minSep + 3
    _ ← expectChar str ':' secSep
    minute ← mustAtoi (← goSliceE str (minSep + 1) secSep)
    let secEnd := secSep + 3
    second ← mustAtoi (← goSliceE str (secSep + 1) secEnd)
  let mut remainderIdx := monSep + 15
  let mut nanoSec : Int := 0
  let mut tzOff : Int := 0
  let mut bcSign : Int := 1
  if hdot : remainderIdx < str.length then
    if str.get ⟨remainderIdx, hdot⟩ = '.' then
      let fracStart := remainderIdx + 1
      let fracOff := match (str.drop fracStart).findIdx? fun c => c = '-' ∨ c = '+' ∨ c = ' ' with
        | some i => i
        | none => str.length - fracStart
      let fracSec ← mustAtoi (← goSliceE str fracStart (fracStart + fracOff))
      nanoSec := fracNano fracSec fracOff
      remainderIdx := remainderIdx + fracOff + 1
  let tzStart := remainderIdx
  if htz : tzStart < str.length then
    let c0 := str.get ⟨tzStart, htz⟩
    if c0 = '-' ∨ c0 = '+' then
      let tzSign : Int := if c0 = '-' then -1 else 1
      let tzHours ← mustAtoi (← goSliceE str (tzStart + 1) (tzStart + 3))
      remainderIdx := remainderIdx + 3
      let mut tzMin : Int := 0
      let mut tzSec : Int := 0
      if hm : tzStart + 3 < str.length then
        if str.get ⟨tzStart + 3, hm⟩ = ':' then
          tzMin ← mustAtoi (← goSliceE str (tzStart + 4) (tzStart + 6))
          remainderIdx := remainderIdx + 3
      if hs : tzStart + 6 < str.length then
        if str.get ⟨tzStart + 6, hs⟩ = ':' then
          tzSec ← mustAtoi (← goSliceE str (tzStart + 7) (tzStart + 9))
          remainderIdx := remainderIdx + 3
      tzOff := tzSign * tzHours * (60 * 60) + tzMin * 60 + tzSec
  if remainderIdx < str.length then
    let bc ← goSliceE str remainderIdx (remainderIdx + 3)
    if bc = [' ', 'B', 'C'] then
      bcSign := -1
      remainderIdx := remainderIdx + 3
  if remainderIdx < str.length then
    Except.error ("expected end of input".toList)
  else
    pure ⟨bcSign * year, month, day, hour, minute, second, nanoSec, tzOff⟩

/-- C2: parsing `2001-02-03 04:05:06.123-07 BC` with no session zone yields
year -2001 (the ` BC` suffix negates it — without the suffix the year is
2001), February 3, 04:05:06 with 123000000 ns (.123 contributes
123·10^(9-3)), at fixed offset -7h = -25200 s; in general a fraction of
length 1..9 contributes `parsed · 10^(9 - length)` nanoseconds. -/
theorem claim_C2_timestamp :
    parseTs ("2001-02-03 04:05:06.123-07 BC".toList)
      = Except.ok ⟨-2001, 2, 3, 4, 5, 6, 123000000, -25200⟩
    ∧ parseTs ("2001-02-03 04:05:06.123-07".toList)
      = Except.ok ⟨2001, 2, 3, 4, 5, 6, 123000000, -25200⟩
    ∧ (∀ (v : Int) (n : Nat), 1 ≤ n → n ≤ 9 → fracNano v n = v * 10 ^ (9 - n)) := by
  refine ⟨rfl, rfl, ?_⟩
  intro v n h1 h2
  interval_cases n <;> (unfold fracNano; norm_num)

/-- Witness for C2: the fraction formula at the scenario's `.123`. -/
theorem claim_C2_witness : fracNano 123 3 = 123 * 10 ^ (9 - 3) :=
  claim_C2_timestamp.2.2 123 3 (by decide) (by decide)

/-! ### Transaction logic (src/unnamed/part_000: `conn.Commit` lines 206-230,
`conn.Rollback` lines 232-244, `checkIsInTransaction` lines 185-189,
`ErrInFailedTransaction` line 28).  `simpleExec` is abstracted by a server
oracle mapping a transaction-control query to its command tag and the
transaction status byte of the final `ReadyForQuery`; the connection records
the queries it sends. -/

def ErrInFailedTransaction : List Char :=
  "pq: Could not complete operation in a failed transaction".toList

/-- Transaction-relevant connection state: the status byte from the last
`ReadyForQuery` ('I', 'T' or 'E') and the queries sent so far. -/
structure ConnTx : Type where
  txnStatus : Char
  sent : List (List Char)
deriving DecidableEq, Repr

/-- Go `conn.isInTransaction`. -/
def isInTransaction (cn : ConnTx) : Bool :=
  cn.txnStatus = 'T' || cn.txnStatus = 'E'

/-- Go `conn.simpleExec(q)` abstracted to its observable effect: the query is
sent, the returned tag comes from the server, and `processReadyForQuery`
stores the new status byte. -/
def simpleExecTx (server : List Char → List Char × Char) (cn : ConnTx) (q : List Char) :
    ConnTx × List Char :=
  (⟨(server q).2, cn.sent ++ [q]⟩, (server q).1)

/-- Go `conn.Rollback`: requires an open transaction, sends `ROLLBACK`, checks
the tag and that the transaction is closed.  `some msg` models the returned
error. -/
def rollbackTx (server : List Char → List Char × Char) (cn : ConnTx) :
    ConnTx × Option (List Char) :=
  if ¬isInTransaction cn then (cn, some ("unexpected transaction status".toList))
  else
    let r := simpleExecTx server cn ("ROLLBACK".toList)
    if r.2 ≠ "ROLLBACK".toList then (r.1, some ("unexpected command tag".toList))
    else if isInTransaction r.1 then (r.1, some ("unexpected transaction status".toList))
    else (r.1, none)

/-- Go `conn.Commit`: requires an open transaction; in a failed transaction it
rolls back and reports `ErrInFailedTransaction` instead of sending `COMMIT`. -/
def commitTx (server : List Char → List Char × Char) (cn : ConnTx) :
    ConnTx × Option (List Char) :=
  if ¬isInTransaction cn then (cn, some ("unexpected transaction status".toList))
  else if cn.txnStatus = 'E' then
    let r := rollbackTx server cn
    match r.2 with
    | some err => (r.1, some err)
    | none => (r.1, some ErrInFailedTransaction)
  else
    let r := simpleExecTx server cn ("COMMIT".toList)
    if r.2 ≠ "COMMIT".toList then (r.1, some ("unexpected command tag".toList))
    else if isInTransaction r.1 then (r.1, some ("unexpected transaction status".toList))
    else (r.1, none)

/-- C6: committing a connection in failed-transaction status sends `ROLLBACK`
(only), leaves the connection idle, and returns the in-failed-transaction
error, provided the server answers `ROLLBACK` with tag `ROLLBACK` and idle
status, as the protocol prescribes. -/
theorem claim_C6_commit_failed (server : List Char → List Char × Char) (cn : ConnTx)
    (hsrv : server ("ROLLBACK".toList) = ("ROLLBACK".toList, 'I'))
    (hst : cn.txnStatus = 'E') :
    commitTx server cn
      = (⟨'I', cn.sent ++ ["ROLLBACK".toList]⟩, some ErrInFailedTransaction)
    ∧ "COMMIT".toList ∉ ((commitTx server cn).1.sent.drop cn.sent.length) := by
  obtain ⟨st, sent⟩ := cn
  simp only at hst
  subst hst
  have hsrv2 : server ['R', 'O', 'L', 'L', 'B', 'A', 'C', 'K']
      = (['R', 'O', 'L', 'L', 'B', 'A', 'C', 'K'], 'I') := by
    simpa using hsrv
  have h1 : commitTx server ⟨'E', sent⟩
      = (⟨'I', sent ++ ["ROLLBACK".toList]⟩, some ErrInFailedTransaction) := by
    simp [commitTx, rollbackTx, simpleExecTx, isInTransaction, hsrv2]
  refine ⟨h1, ?_⟩
  rw [h1]
  simp

/-- Witness for C6: a concrete echo server and a failed-transaction state. -/
theorem claim_C6_witness :
    commitTx (fun q => (q, 'I')) ⟨'E', []⟩
      = (⟨'I', ["ROLLBACK".toList]⟩, some ErrInFailedTransaction)
    ∧ "COMMIT".toList ∉ ((commitTx (fun q => (q, 'I')) ⟨'E', []⟩).1.sent.drop 0) := by
  have h := claim_C6_commit_failed (fun q => (q, 'I')) ⟨'E', []⟩ rfl rfl
  simpa using h

/-! ### Environment-variable handling.  The repository carries two
implementations: `parseEnviron` in src/unnamed/part_000 (lines 714-776)
panics with `setting X not supported` on well-defined but unsupported
variables, while the legacy `parseEnviron` in src/conn.go (lines 475-535)
forwards some of them (`PGHOSTADDR` → `hostaddr`, the SSL/kerberos/timeout
family) and silently skips the rest. -/

/-- Go `strings.SplitN(v, "=", 2)[0]`. -/
def envKey (e : List Char) : List Char := e.takeWhile fun c => c ≠ '='

/-- Go `strings.SplitN(v, "=", 2)[1]`; `none` when there is no `=` (indexing
`parts[1]` would then panic). -/
def envValue (e : List Char) : Option (List Char) :=
  if e.any (fun c => c = '=') then some ((e.dropWhile fun c => c ≠ '=').drop 1) else none

/-- Assoc-list lookup with string keys (Go `switch` over `parts[0]`). -/
def lookupKey {α : Type} : List (List Char × α) → List Char → Option α
  | [], _ => none
  | (k, v) :: t, x => if k = x then some v else lookupKey t x

/-- Go map assignment `out[k] = v`. -/
def setOpt (out : List (List Char × List Char)) (k v : List Char) :
    List (List Char × List Char) :=
  (out.filter fun p => p.1 ≠ k) ++ [(k, v)]

/-- Go `accrue` cases of part_000's `parseEnviron` switch. -/
def pgAccruePairs : List (List Char × List Char) :=
  [("PGHOST".toList, "host".toList), ("PGPORT".toList, "port".toList),
   ("PGDATABASE".toList, "dbname".toList), ("PGUSER".toList, "user".toList),
   ("PGPASSWORD".toList, "password".toList), ("PGOPTIONS".toList, "options".toList),
   ("PGAPPNAME".toList, "application_name".toList), ("PGSSLMODE".toList, "sslmode".toList),
   ("PGCLIENTENCODING".toList, "client_encoding".toList),
   ("PGDATESTYLE".toList, "datestyle".toList), ("PGTZ".toList, "timezone".toList),
   ("PGGEQO".toList, "geqo".toList)]

/-- Go `unsupported` cases of part_000's `parseEnviron` switch. -/
def pgUnsupported : List (List Char) :=
  ["PGHOSTADDR".toList, "PGPASSFILE".toList, "PGSERVICE".toList, "PGSERVICEFILE".toList,
   "PGREALM".toList, "PGREQUIRESSL".toList, "PGSSLCERT".toList, "PGSSLKEY".toList,
   "PGSSLROOTCERT".toList, "PGSSLCRL".toList, "PGREQUIREPEER".toList,
   "PGKRBSRVNAME".toList, "PGGSSLIB".toList, "PGCONNECT_TIMEOUT".toList,
   "PGSYSCONFDIR".toList, "PGLOCALEDIR".toList]

/-- One switch iteration of part_000's `parseEnviron` (the two case groups are
disjoint, so rendering the switch as two lookups preserves its behavior). -/
def parseEnvironStep (out : List (List Char × List Char)) (e : List Char) :
    Except (List Char) (List (List Char × List Char)) :=
  match lookupKey pgAccruePairs (envKey e) with
  | some target =>
    match envValue e with
    | some v => Except.ok (setOpt out target v)
    | none => Except.error ("index out of range".toList)
  | none =>
    if envKey e ∈ pgUnsupported then
      Except.error ("setting ".toList ++ envKey e ++ " not supported".toList)
    else Except.ok out

/-- part_000's `parseEnviron`: the loop over the environment. -/
def parseEnvironGo (env : List (List Char)) :
    Except (List Char) (List (List Char × List Char)) :=
  env.foldlM parseEnvironStep []

/-- Go `accrue` cases of the legacy conn.go `parseEnviron` switch (no
`unsupported` cases: everything else is silently skipped). -/
def pgAccruePairsLegacy : List (List Char × List Char) :=
  [("PGHOST".toList, "host".toList), ("PGHOSTADDR".toList, "hostaddr".toList),
   ("PGPORT".toList, "port".toList), ("PGDATABASE".toList, "dbname".toList),
   ("PGUSER".toList, "user".toList), ("PGPASSWORD".toList, "password".toList),
   ("PGOPTIONS".toList, "options".toList),
   ("PGAPPNAME".toList, "application_name".toList), ("PGSSLMODE".toList, "sslmode".toList),
   ("PGREQUIRESSL".toList, "requiressl".toList), ("PGSSLCERT".toList, "sslcert".toList),
   ("PGSSLKEY".toList, "sslkey".toList), ("PGSSLROOTCERT".toList, "sslrootcert".toList),
   ("PGSSLCRL".toList, "sslcrl".toList), ("PGREQUIREPEER".toList, "requirepeer".toList),
   ("PGKRBSRVNAME".toList, "krbsrvname".toList), ("PGGSSLIB".toList, "gsslib".toList),
   ("PGCONNECT_TIMEOUT".toList, "connect_timeout".toList),
   ("PGCLIENTENCODING".toList, "client_encoding".toList)]

/-- The legacy conn.go `parseEnviron`: accrue known keys, skip everything
else; it never fails on unsupported variables. -/
def parseEnvironLegacy (env : List (List Char)) :
    Except (List Char) (List (List Char × List Char)) :=
  env.foldlM (fun out e =>
    match lookupKey pgAccruePairsLegacy (envKey e) with
    | some target =>
      match envValue e with
      | some v => Except.ok (setOpt out target v)
      | none => Except.error ("index out of range".toList)
    | none => Except.ok out) []

theorem unsupported_not_accrued :
    ∀ k ∈ pgUnsupported, lookupKey pgAccruePairs k = none := by decide

/-- C8 counterexample: with `PGHOSTADDR` present, the legacy conn.go
`parseEnviron` does not fail at all — it forwards the value as the `hostaddr`
setting. -/
theorem claim_C8_counterexample :
    parseEnvironLegacy ["PGHOSTADDR=10.0.0.1".toList]
      = Except.ok [("hostaddr".toList, "10.0.0.1".toList)] := by
  rfl

theorem parseEnvironGo_aux (env : List (List Char)) :
    ∀ init : List (List Char × List Char),
      (∃ e ∈ env, envKey e ∈ pgUnsupported) →
      (∀ e ∈ env, (envValue e).isSome) →
      ∃ name ∈ pgUnsupported,
        env.foldlM parseEnvironStep init
          = Except.error ("setting ".toList ++ name ++ " not supported".toList) := by
  induction env with
  | nil =>
    intro init hex _
    obtain ⟨e, he, _⟩ := hex
    simp at he
  | cons e rest ih =>
    intro init hex hwell
    by_cases hu : envKey e ∈ pgUnsupported
    · refine ⟨envKey e, hu, ?_⟩
      rw [List.foldlM_cons,
        show parseEnvironStep init e
            = Except.error ("setting ".toList ++ envKey e ++ " not supported".toList) by
          unfold parseEnvironStep
          rw [unsupported_not_accrued _ hu, if_pos hu]]
      rfl
    · have hex' : ∃ x ∈ rest, envKey x ∈ pgUnsupported := by
        obtain ⟨x, hx, hxu⟩ := hex
        rcases List.mem_cons.mp hx with rfl | hxr
        · exact absurd hxu hu
        · exact ⟨x, hxr, hxu⟩
      have hwell' : ∀ x ∈ rest, (envValue x).isSome :=
        fun x hx => hwell x (List.mem_cons_of_mem _ hx)
      rw [List.foldlM_cons]
      unfold parseEnvironStep
      match hlk : lookupKey pgAccruePairs (envKey e) with
      | some target =>
        obtain ⟨v, hv⟩ := Option.isSome_iff_exists.mp (hwell e (List.mem_cons_self e rest))
        rw [hv]
        exact ih (setOpt init target v) hex' hwell'
      | none =>
        rw [if_neg hu]
        exact ih init hex' hwell'

/-- C8 (amended, for the part_000 implementation): if the environment contains
any of the unsupported `PG*` variables, `parseEnviron` fails with
`setting X not supported` naming one of them.  (The legacy conn.go
implementation instead forwards or ignores these variables.) -/
theorem claim_C8_amended (env : List (List Char))
    (hex : ∃ e ∈ env, envKey e ∈ pgUnsupported)
    (hwell : ∀ e ∈ env, (envValue e).isSome) :
    ∃ name ∈ pgUnsupported,
      parseEnvironGo env
        = Except.error ("setting ".toList ++ name ++ " not supported".toList) :=
  parseEnvironGo_aux env [] hex hwell

/-- Witness for the amended C8 at `PGHOSTADDR=10.0.0.1`. -/
theorem claim_C8_witness :
    ∃ name ∈ pgUnsupported,
      parseEnvironGo ["PGHOSTADDR=10.0.0.1".toList]
        = Except.error ("setting ".toList ++ name ++ " not supported".toList) :=
  claim_C8_amended ["PGHOSTADDR=10.0.0.1".toList]
    ⟨"PGHOSTADDR=10.0.0.1".toList, by decide, by decide⟩ (by decide)

end Pq
